import Mathlib

/-!
Verification of the Route Weather Simulation Engine of this repository
(`weather_simulator.py`) against its natural-language specification.

The engine's pure logic is shallowly embedded here:

* machine floats are modelled as elements of a `LinearOrderedField` with a
  `FloorRing` (instantiated at `ℚ` for executable checks and at `ℝ` for the
  trigonometric `haversine` distance);
* Python's `int(x)` truncation is `pyInt`, Python's `round(x, 2)`
  (round-half-to-even) is `pyRound2`;
* the two weather providers are modelled by oracles describing the outcome of
  each network request (transient failure, or a response value), so that the
  adapters' control flow — retries, batch isolation, exception propagation —
  is captured exactly;
* Python exceptions are values of `PyError`; code that can leak an exception
  is embedded in `Except PyError`.

Definitions are translated from the source; the one exception is
`project_route_avg_speed`, which is modelled from the spec because the
average-speed mode was removed from the sources (see its doc comment), and
`specReconcileCategory`/`WeatherCategory`, which transcribe the spec's §4.6
reconciliation table so that the source reconciler can be proved to refine it.
-/

/-- Python `int(x)`: truncation toward zero. -/
def pyInt {α : Type*} [LinearOrderedField α] [FloorRing α] (x : α) : ℤ :=
  if 0 ≤ x then ⌊x⌋ else ⌈x⌉

/-- Round half to even (the rounding used by Python's builtin `round`). -/
def rhe {α : Type*} [LinearOrderedField α] [FloorRing α] (x : α) : ℤ :=
  if Int.fract x = 1/2 then (if Even ⌊x⌋ then ⌊x⌋ else ⌊x⌋ + 1) else round x

/-- Python `round(x, 2)`: round half to even at two decimal digits. -/
def pyRound2 {α : Type*} [LinearOrderedField α] [FloorRing α] (x : α) : α :=
  (rhe (x * 100) : α) / 100

/- ### Category translation (`wmo_code_to_description`) -/

/-- `wmo_code_to_description`: convert an Open-Meteo WMO code into the three
categories Sunny, Cloudy, Rain; unknown codes default to Cloudy. -/
def wmo_code_to_description (code : ℤ) : String :=
  if code ∈ [0, 1] then "Sunny"
  else if code ∈ [2, 3, 45, 48] then "Cloudy"
  else if code ∈ [51, 53, 55, 61, 63, 65, 71, 73, 75, 80, 81, 82, 95, 96, 99] then "Rain"
  else "Cloudy"

/- ### Coarse precipitation adapter (`_get_weather_for_points_yahoo`) -/

/-- A Python exception, as far as the adapters' `except` clauses distinguish
them: `requests.exceptions.RequestException` versus anything else that can
be raised inside the `try` blocks — `ValueError`, and the `KeyError` /
`IndexError` family raised by subscripting a missing or too-short array
(modelled as one constructor, since the adapters catch neither). -/
inductive PyError : Type
  | requestException : PyError
  | valueError : String → PyError
  | indexError : PyError
  deriving DecidableEq, Repr

/-- The coarse (Yahoo) weather mark attached to a point:
`description` ∈ {"Rain", "No rain", "No forecast"} plus the raw rainfall. -/
structure BaseWeather (α : Type*) : Type _ where
  description : String
  rainfall_mm_h : Option α
  deriving DecidableEq, Repr

/-- A point handed to the coarse adapter: coordinates, timestamp, and the
weather field the adapter fills in (`none` = not yet written). -/
structure WPoint (α : Type*) : Type _ where
  lat : α
  lon : α
  timestamp : α
  weather : Option (BaseWeather α)
  deriving DecidableEq, Repr

/-- One entry of a Yahoo feature's forecast list: its timestamp (the parsed
minute-precision `Date` string) and its optional `Rainfall` figure. -/
structure YahooForecast (α : Type*) : Type _ where
  date_ts : α
  rainfall : Option α
  deriving DecidableEq, Repr

/-- One Yahoo weather feature: the forecast list found at
`Property.WeatherList.Weather`. -/
structure YahooFeature (α : Type*) : Type _ where
  forecasts : List (YahooForecast α)
  deriving DecidableEq, Repr

/-- Outcome of one batched Yahoo request: a transient request failure, or a
JSON response whose `Feature` key may be present (`some features`) or
missing (`none`). -/
inductive YahooNet (α : Type*) : Type _
  | requestFailure : YahooNet α
  | response : Option (List (YahooFeature α)) → YahooNet α

/-- Python's `min(xs, key=k)` for a nonempty list `x :: xs`: the first
element with minimal key (later elements replace only on strictly
smaller key). -/
def minByKey {α : Type*} [LinearOrder α] {β : Type*} (key : β → α) (x : β)
    (xs : List β) : β :=
  xs.foldl (fun best c => if key c < key best then c else best) x

/-- Body of the per-point processing inside the Yahoo `try` block: pick the
forecast whose date is closest to the point's timestamp, mark `Rain` iff its
rainfall is positive; an empty forecast list marks `No forecast`. -/
def yahooAssign {α : Type*} [LinearOrderedField α] (p : WPoint α)
    (f : YahooFeature α) : WPoint α :=
  match f.forecasts with
  | [] => { p with weather := some ⟨"No forecast", none⟩ }
  | fc :: rest =>
      let best := minByKey (fun fc0 => |p.timestamp - fc0.date_ts|) fc rest
      let rainfall := best.rainfall.getD 0
      let desc := if 0 < rainfall then "Rain" else "No rain"
      { p with weather := some ⟨desc, some rainfall⟩ }

/-- The `try` block of `_get_weather_for_points_yahoo` for one chunk: a
request failure raises `RequestException`; a response without the `Feature`
key raises `ValueError`; otherwise the chunk is zipped against the feature
list (Python's `zip` stops at the shorter list, so surplus points keep their
previous `weather` field). -/
def yahooChunkBody {α : Type*} [LinearOrderedField α] (chunk : List (WPoint α))
    (net : YahooNet α) : Except PyError (List (WPoint α)) :=
  match net with
  | .requestFailure => .error .requestException
  | .response none =>
      .error (.valueError "API response does not contain 'Feature' key.")
  | .response (some feats) =>
      .ok ((chunk.zip feats).map (fun pf => yahooAssign pf.1 pf.2)
            ++ chunk.drop feats.length)

/-- One chunk of `_get_weather_for_points_yahoo` including its `except`
clause, which catches only `requests.exceptions.RequestException` and marks
the whole chunk `No forecast`; any other exception propagates. -/
def yahooChunk {α : Type*} [LinearOrderedField α] (chunk : List (WPoint α))
    (net : YahooNet α) : Except PyError (List (WPoint α)) :=
  match yahooChunkBody chunk net with
  | .ok r => .ok r
  | .error .requestException =>
      .ok (chunk.map (fun p => { p with weather := some ⟨"No forecast", none⟩ }))
  | .error e => .error e

/- ### Detailed weather adapter (`_get_open_meteo_data`) -/

/-- The `hourly` part of an Open-Meteo response: parallel arrays of ISO
timestamps (modelled as numbers), temperatures and WMO codes. A missing
`hourly` key is the degenerate value with empty arrays. -/
structure OpenMeteoHourly (α : Type*) : Type _ where
  times : List α
  temperature_2m : List α
  weather_code : List ℤ

/-- Outcome of one Open-Meteo request attempt. -/
inductive OMAttempt (α : Type*) : Type _
  | requestException : OMAttempt α
  | success : OpenMeteoHourly α → OMAttempt α

/-- What `_get_open_meteo_data` returns on success. -/
structure OMResult (α : Type*) : Type _ where
  temperature : α
  description : String
  deriving DecidableEq, Repr

/-- Python `min(range(n), key=k)`: the first index in `0..n-1` with minimal
key (`0` when `n = 0`, a case the source never reaches). -/
def argminIdx {α : Type*} [LinearOrder α] (key : ℕ → α) (n : ℕ) : ℕ :=
  (List.range n).foldl (fun best c => if key c < key best then c else best) 0

/-- Python subscripting `l[idx]`: raises (`IndexError`, or `KeyError` when
the whole array is missing and hence modelled empty) past any handler that
does not catch it. -/
def pyIndex {β : Type*} (l : List β) (idx : ℕ) : Except PyError β :=
  match l.get? idx with
  | some v => .ok v
  | none => .error .indexError

/-- Successful-response processing of `_get_open_meteo_data`: choose the
hourly entry closest in time to the point's timestamp (the argmin only
probes indices below `times.length`, so its `getD` default is never read)
and subscript the temperature and weather-code arrays at that index. The
source performs these subscripts inside a `try` whose handler catches only
`requests.exceptions.RequestException`, so when either array is missing or
shorter than the time array the raised `KeyError`/`IndexError` is not
caught — hence the `Except` result. (ISO-timestamp parsing is abstracted:
`times` are already numbers.) -/
def om_extract {α : Type*} [LinearOrderedField α] (target : α)
    (h : OpenMeteoHourly α) : Except PyError (OMResult α) :=
  let idx := argminIdx (fun i => |(h.times.getD i 0) - target|) h.times.length
  match pyIndex h.temperature_2m idx with
  | .error e => .error e
  | .ok temp =>
      match pyIndex h.weather_code idx with
      | .error e => .error e
      | .ok code => .ok ⟨temp, wmo_code_to_description code⟩

/-- The retry loop of `_get_open_meteo_data` (`for attempt in range(3)`),
with `outcomes n` the result of the `n`-th request. Returns the adapter's
outcome — `.ok none` for "unavailable", `.ok (some r)` on success, or
`.error e` when an exception escapes the loop (only `RequestException` is
caught, so the subscripting errors of `om_extract` propagate) — together
with the number of attempts performed and the number of 1-second
`time.sleep(1)` pauses executed. `fuel` is the number of loop iterations
left (3 at entry). -/
def open_meteo_go {α : Type*} [LinearOrderedField α]
    (outcomes : ℕ → OMAttempt α) (target : α) :
    ℕ → ℕ → Except PyError (Option (OMResult α)) × ℕ × ℕ
  | _, 0 => (.ok none, 0, 0)
  | attempt, fuel + 1 =>
      match outcomes attempt with
      | .success hourly =>
          if hourly.times = [] then (.ok none, 1, 0)
          else ((om_extract target hourly).map some, 1, 0)
      | .requestException =>
          if attempt = 2 then (.ok none, 1, 0)
          else
            let r := open_meteo_go outcomes target (attempt + 1) fuel
            (r.1, r.2.1 + 1, r.2.2 + 1)

/-- `_get_open_meteo_data`: run the 3-attempt retry loop from attempt 0.
Exhausted retries and responses without an hourly time series return
`.ok none` (`None` in the source); a response whose temperature or code
array does not carry the selected index makes the adapter call end in
`.error`, the source's uncaught exception. -/
def get_open_meteo_data {α : Type*} [LinearOrderedField α]
    (outcomes : ℕ → OMAttempt α) (target : α) :
    Except PyError (Option (OMResult α)) × ℕ × ℕ :=
  open_meteo_go outcomes target 0 3

/- ### Reconciler (step 2 of `_generate_weather_report`) -/

/-- The final weather decision of `_generate_weather_report` for one point:
`coarse` is the Yahoo description already attached to the point, `om` the
Open-Meteo result (`none` when that adapter was unavailable). -/
def final_description {α : Type*} (coarse : String) (om : Option (OMResult α)) :
    String :=
  if coarse = "Rain" then "Rain"
  else
    match om with
    | some d => d.description
    | none => if coarse = "No forecast" then "No forecast" else "Cloudy"

/-- The spec's four weather categories (§3). The source represents
`unknown` by the sentinel string `"No forecast"`. -/
inductive WeatherCategory : Type
  | sunny | cloudy | rain | unknown
  deriving DecidableEq, Repr

/-- The spec's three coarse-adapter signals (§4.6). -/
inductive CoarseSignal : Type
  | rain | noRain | noForecast
  deriving DecidableEq, Repr

/-- The reconciliation precedence table exactly as the spec states it
(§4.6): coarse `Rain` wins; else the detailed category; else `unknown` on
coarse adapter failure; else `cloudy`. -/
def specReconcileCategory (coarse : CoarseSignal)
    (detailed : Option WeatherCategory) : WeatherCategory :=
  match coarse, detailed with
  | .rain, _ => .rain
  | _, some c => c
  | .noForecast, none => .unknown
  | .noRain, none => .cloudy

/-- Abstraction from the source's description strings to the spec's
category vocabulary; the source's `"No forecast"` sentinel is what the
spec's data model calls `Unknown`. -/
def categoryOfDescription (s : String) : Option WeatherCategory :=
  if s = "Sunny" then some .sunny
  else if s = "Cloudy" then some .cloudy
  else if s = "Rain" then some .rain
  else if s = "No forecast" then some .unknown
  else none

/-- Abstraction from the Yahoo description strings to the spec's coarse
signals (defined on the three strings the coarse adapter produces). -/
def coarseSignalOfDescription (s : String) : CoarseSignal :=
  if s = "Rain" then .rain
  else if s = "No forecast" then .noForecast
  else .noRain

/- ### Geodesic distance (`haversine`) -/

/-- `np.radians`: degrees to radians. -/
noncomputable def radians (x : ℝ) : ℝ := x * Real.pi / 180

/-- `np.arctan2 y x` for real (non-NaN, unsigned-zero) inputs. -/
noncomputable def arctan2 (y x : ℝ) : ℝ :=
  if 0 < x then Real.arctan (y / x)
  else if x < 0 then
    (if 0 ≤ y then Real.arctan (y / x) + Real.pi else Real.arctan (y / x) - Real.pi)
  else
    (if 0 < y then Real.pi / 2 else if y < 0 then -(Real.pi / 2) else 0)

/-- `haversine`: great-circle distance (km) between two lat/lon points,
Earth radius 6371 km, exactly as in the source (floating point idealized to
`ℝ`). -/
noncomputable def haversine (lat1 lon1 lat2 lon2 : ℝ) : ℝ :=
  let R : ℝ := 6371
  let lat1_rad := radians lat1
  let lon1_rad := radians lon1
  let lat2_rad := radians lat2
  let lon2_rad := radians lon2
  let dlon := lon2_rad - lon1_rad
  let dlat := lat2_rad - lat1_rad
  let a := Real.sin (dlat / 2) ^ 2 +
    Real.cos lat1_rad * Real.cos lat2_rad * Real.sin (dlon / 2) ^ 2
  let c := 2 * arctan2 (Real.sqrt a) (Real.sqrt (1 - a))
  R * c

/- ### Route sampler (`_sample_route_by_distance`) -/

/-- A sampled point as built by `_sample_route_by_distance`: interpolated
coordinates, an `int()`-truncated timestamp, and the rounded cumulative
distance. -/
structure SamplePoint (α : Type*) : Type _ where
  lat : α
  lon : α
  timestamp : ℤ
  distance_km : α
  deriving DecidableEq, Repr

/-- The sample point emitted by the body of the sampler's `while` loop for
target cumulative distance `s`, on the segment `prev → curr` of length `d`
starting at cumulative distance `cum`: linear interpolation of position and
timestamp at fraction `(s - cum) / d`. -/
def interpPoint {α : Type*} [LinearOrderedField α] [FloorRing α]
    (prev curr : α × α × α) (d cum s : α) : SamplePoint α :=
  let fraction := (s - cum) / d
  ⟨prev.1 + fraction * (curr.1 - prev.1),
   prev.2.1 + fraction * (curr.2.1 - prev.2.1),
   pyInt (prev.2.2 + fraction * (curr.2.2 - prev.2.2)),
   pyRound2 s⟩

/-- The sampler's inner `while cumulative_distance + distance >=
next_sample_distance` loop: emits interpolated points at `next`,
`next + i`, … while they fall inside the current segment, and returns the
final value of `next_sample_distance`. The source's loop does not terminate
for a non-positive interval, so the embedding guards on `0 < i` (claims are
stated for positive intervals only). -/
def sampleLoop {α : Type*} [LinearOrderedField α] [FloorRing α] (i : α)
    (prev curr : α × α × α) (d cum next : α) : List (SamplePoint α) × α :=
  if h : 0 < i ∧ next ≤ cum + d then
    let r := sampleLoop i prev curr d cum (next + i)
    (interpPoint prev curr d cum next :: r.1, r.2)
  else ([], next)
termination_by (⌊(cum + d - next) / i⌋ + 1).toNat
decreasing_by
  have hi : 0 < i := h.1
  have hc : next ≤ cum + d := h.2
  have h1 : (cum + d - (next + i)) / i = (cum + d - next) / i - 1 := by
    rw [show cum + d - (next + i) = cum + d - next - i by ring, sub_div,
      div_self hi.ne']
  have h3 : 0 ≤ ⌊(cum + d - next) / i⌋ :=
    Int.floor_nonneg.2 (div_nonneg (by linarith) hi.le)
  rw [h1, Int.floor_sub_one]
  omega

/-- The sampler's outer `for i in range(1, len(route))` loop over consecutive
segments, threading `cumulative_distance` and `next_sample_distance`;
`dist` is the segment-distance function (the source calls `haversine`). -/
def sampleSegs {α : Type*} [LinearOrderedField α] [FloorRing α]
    (dist : α → α → α → α → α) (i : α) :
    α × α × α → List (α × α × α) → α → α → List (SamplePoint α)
  | _, [], _, _ => []
  | prev, curr :: rest, cum, next =>
      let d := dist prev.1 prev.2.1 curr.1 curr.2.1
      let r := sampleLoop i prev curr d cum next
      r.1 ++ sampleSegs dist i curr rest (cum + d) r.2

/-- `_sample_route_by_distance`: emit the route's first point at distance 0
unconditionally, then sample every `interval_km` along the segments. -/
def sample_route_by_distance {α : Type*} [LinearOrderedField α] [FloorRing α]
    (dist : α → α → α → α → α) (route : List (α × α × α)) (interval_km : α) :
    List (SamplePoint α) :=
  match route with
  | [] => []
  | first :: rest =>
      ⟨first.1, first.2.1, pyInt first.2.2, 0⟩ ::
        sampleSegs dist interval_km first rest 0 interval_km

/- ### Engine entry point (`simulate_journey_and_get_weather`) -/

/-- Total route distance as computed by `simulate_journey_and_get_weather`:
the sum of `dist` over consecutive pairs. -/
def totalDistance {α : Type*} [LinearOrderedField α]
    (dist : α → α → α → α → α) : List (α × α × α) → α
  | [] => 0
  | [_] => 0
  | a :: b :: rest => dist a.1 a.2.1 b.1 b.2.1 + totalDistance dist (b :: rest)

/-- The engine's dynamic sampling-interval selection: start from the 15 km
default, estimate the resulting point count, shrink to `L / 4` when below
the `MIN_POINTS = 5` target, grow to `L / 14` when above `MAX_POINTS = 15`,
and clamp to the `HARD_MIN_INTERVAL = 5` km floor. -/
def chooseInterval {α : Type*} [LinearOrderedField α] [FloorRing α] (L : α) :
    α :=
  if 0 < L then
    max (if (⌊L / 15⌋ + 1 : ℤ) < 5 then L / 4
      else if (15 : ℤ) < ⌊L / 15⌋ + 1 then L / 14 else 15) 5
  else 15

/-- The deterministic front of `simulate_journey_and_get_weather`: an empty
route short-circuits to `[]` (after logging an error), otherwise each
`[lat, lon, elapsed_seconds]` point is projected to an absolute timestamp
`start_ts + elapsed_seconds` and the projected route is sampled at the
dynamically chosen interval. The subsequent weather stages annotate these
sampled points one-to-one and do not change their number. Every control
path returns a value, modelling that this entry path raises no exception. -/
def simulate_journey_samples {α : Type*} [LinearOrderedField α] [FloorRing α]
    (dist : α → α → α → α → α) (route : List (α × α × α)) (start_ts : α) :
    List (SamplePoint α) :=
  match route with
  | [] => []
  | _ :: _ =>
      let projected := route.map (fun p => (p.1, p.2.1, start_ts + p.2.2))
      sample_route_by_distance dist projected
        (chooseInterval (totalDistance dist projected))

/- ### Journey time projector, average-speed mode -/

/-- Tail of the average-speed projection: each subsequent point's timestamp
adds the segment's travel time at speed `v` (km/h). -/
def projectAvgGo {α : Type*} [LinearOrderedField α]
    (dist : α → α → α → α → α) (v : α) :
    α × α → α → List (α × α) → List (α × α × α)
  | _, _, [] => []
  | prev, t, curr :: rest =>
      let t2 := t + dist prev.1 prev.2 curr.1 curr.2 / v * 3600
      (curr.1, curr.2, t2) :: projectAvgGo dist v curr t2 rest

/-- Modelled from the spec: the average-speed mode of the Journey Time
Projector (spec §4.2/§6). The current sources support only explicit-time
routes — `main.py` notes that the `average_speed_kmh` argument was removed —
so this mode's code is not under `src/`. Following the spec's words: the
first point gets `timestamp = start_time`; each subsequent point gets
`timestamp = prev.timestamp + Distance(prev, curr) / avg_speed_kmh * 3600`. -/
def project_route_avg_speed {α : Type*} [LinearOrderedField α]
    (dist : α → α → α → α → α) (points : List (α × α)) (v t0 : α) :
    List (α × α × α) :=
  match points with
  | [] => []
  | p :: rest => (p.1, p.2, t0) :: projectAvgGo dist v p t0 rest

/-! ## Arithmetic facts about the Python rounding primitives -/

theorem pyInt_mono {α : Type*} [LinearOrderedField α] [FloorRing α]
    {x y : α} (h : x ≤ y) : pyInt x ≤ pyInt y := by
  unfold pyInt
  split_ifs with h1 h2 h2
  · exact Int.floor_le_floor h
  · exact absurd (le_trans h1 h) h2
  · have hc : ⌈x⌉ ≤ 0 := Int.ceil_le.2 (by simpa using le_of_not_le h1)
    have hf : 0 ≤ ⌊y⌋ := Int.floor_nonneg.2 h2
    omega
  · exact Int.ceil_le_ceil h

theorem pyInt_zero {α : Type*} [LinearOrderedField α] [FloorRing α] :
    pyInt (0 : α) = 0 := by
  simp [pyInt]

theorem floor_le_rhe {α : Type*} [LinearOrderedField α] [FloorRing α]
    (x : α) : ⌊x⌋ ≤ rhe x := by
  unfold rhe
  split_ifs with h1 h2
  · exact le_refl _
  · omega
  · rw [round_eq]
    exact Int.floor_le_floor (by linarith)

theorem rhe_le_floor_add_one {α : Type*} [LinearOrderedField α] [FloorRing α]
    (x : α) : rhe x ≤ ⌊x⌋ + 1 := by
  unfold rhe
  split_ifs with h1 h2
  · omega
  · omega
  · rw [round_eq, ← Int.floor_add_one]
    exact Int.floor_le_floor (by linarith)

theorem rhe_mono {α : Type*} [LinearOrderedField α] [FloorRing α]
    {x y : α} (h : x ≤ y) : rhe x ≤ rhe y := by
  rcases lt_or_le ⌊x⌋ ⌊y⌋ with hf | hf
  · calc rhe x ≤ ⌊x⌋ + 1 := rhe_le_floor_add_one x
    _ ≤ ⌊y⌋ := by omega
    _ ≤ rhe y := floor_le_rhe y
  · have hfe : ⌊x⌋ = ⌊y⌋ := le_antisymm (Int.floor_le_floor h) hf
    have hfx : Int.fract x = x - ⌊x⌋ := rfl
    have hfy : Int.fract y = y - ⌊y⌋ := rfl
    have hfr : Int.fract x ≤ Int.fract y := by
      rw [hfx, hfy, hfe]; linarith
    by_cases h1 : Int.fract x = 1/2 <;> by_cases h2 : Int.fract y = 1/2 <;>
      simp only [rhe, h1, h2, if_true, if_false, if_pos, if_neg, hfe]
    · simp
    · have hgt : (1:α)/2 < Int.fract y := lt_of_le_of_ne (h1 ▸ hfr) (Ne.symm h2)
      have hy : (⌊y⌋ : α) + Int.fract y = y := Int.floor_add_fract y
      have hr : (⌊y⌋ + 1 : ℤ) ≤ round y := by
        rw [round_eq]
        refine Int.le_floor.2 ?_
        push_cast
        linarith
      split_ifs <;> omega
    · have hlt : Int.fract x < 1/2 := lt_of_le_of_ne (h2 ▸ hfr) h1
      have hx : (⌊x⌋ : α) + Int.fract x = x := Int.floor_add_fract x
      have hr : round x ≤ ⌊y⌋ := by
        rw [round_eq, ← hfe]
        have : ⌊x + 1/2⌋ < ⌊x⌋ + 1 := by
          rw [Int.floor_lt]
          push_cast
          linarith
        omega
      split_ifs <;> omega
    · rw [round_eq, round_eq]
      exact Int.floor_le_floor (by linarith)

theorem pyRound2_mono {α : Type*} [LinearOrderedField α] [FloorRing α]
    {x y : α} (h : x ≤ y) : pyRound2 x ≤ pyRound2 y := by
  unfold pyRound2
  have h1 := rhe_mono (by linarith : x * 100 ≤ y * 100)
  have h2 : ((rhe (x * 100) : ℤ) : α) ≤ ((rhe (y * 100) : ℤ) : α) :=
    Int.cast_le.2 h1
  linarith

theorem pyRound2_nonneg {α : Type*} [LinearOrderedField α] [FloorRing α]
    {x : α} (h : 0 ≤ x) : 0 ≤ pyRound2 x := by
  unfold pyRound2
  refine div_nonneg ?_ (by norm_num)
  have h1 : (0:ℤ) ≤ ⌊x * 100⌋ := Int.floor_nonneg.2 (by positivity)
  exact_mod_cast le_trans h1 (floor_le_rhe _)

theorem rhe_intCast {α : Type*} [LinearOrderedField α] [FloorRing α]
    (n : ℤ) : rhe ((n : α)) = n := by
  unfold rhe
  rw [Int.fract_intCast]
  norm_num

theorem pyRound2_fifteen {α : Type*} [LinearOrderedField α] [FloorRing α] :
    pyRound2 (15 : α) = 15 := by
  unfold pyRound2
  rw [show ((15 : α) * 100) = ((1500 : ℤ) : α) by norm_num, rhe_intCast]
  norm_num

/-! ## The sampler's inner loop in closed form -/

theorem sampleLoop_closed_aux {α : Type*} [LinearOrderedField α] [FloorRing α]
    {i : α} (hi : 0 < i) (prev curr : α × α × α) (d cum : α) :
    ∀ (K : ℕ) (next : α), (⌊(cum + d - next) / i⌋ + 1).toNat = K →
      sampleLoop i prev curr d cum next =
        ((List.range K).map
            (fun j : ℕ => interpPoint prev curr d cum (next + (j : α) * i)),
          next + (K : α) * i) := by
  intro K
  induction K with
  | zero =>
      intro next hK
      have hlt : ¬ next ≤ cum + d := by
        intro hc
        have h3 : 0 ≤ ⌊(cum + d - next) / i⌋ :=
          Int.floor_nonneg.2 (div_nonneg (by linarith) hi.le)
        omega
      rw [sampleLoop, dif_neg (fun hx => hlt hx.2)]
      simp
  | succ K ih =>
      intro next hK
      have hle : next ≤ cum + d := by
        by_contra hlt
        have h0 : ⌊(cum + d - next) / i⌋ < 0 := by
          rw [Int.floor_lt]
          push_cast
          exact div_neg_of_neg_of_pos (by linarith) hi
        omega
      rw [sampleLoop, dif_pos ⟨hi, hle⟩]
      have hnext : (⌊(cum + d - (next + i)) / i⌋ + 1).toNat = K := by
        have h1 : (cum + d - (next + i)) / i = (cum + d - next) / i - 1 := by
          rw [show cum + d - (next + i) = cum + d - next - i by ring, sub_div,
            div_self hi.ne']
        have h3 : 0 ≤ ⌊(cum + d - next) / i⌋ :=
          Int.floor_nonneg.2 (div_nonneg (by linarith) hi.le)
        rw [h1, Int.floor_sub_one]
        omega
      rw [ih (next + i) hnext]
      refine Prod.ext ?_ ?_
      · show interpPoint prev curr d cum next :: _ = _
        rw [List.range_succ_eq_map, List.map_cons, List.map_map]
        refine congrArg₂ _ (by norm_num) ?_
        refine List.map_congr_left fun j _ => ?_
        show interpPoint prev curr d cum (next + i + (j : α) * i) =
          interpPoint prev curr d cum (next + ((j + 1 : ℕ) : α) * i)
        push_cast
        ring_nf
      · show next + i + (K : α) * i = next + ((K + 1 : ℕ) : α) * i
        push_cast
        ring

theorem sampleLoop_closed {α : Type*} [LinearOrderedField α] [FloorRing α]
    {i : α} (hi : 0 < i) (prev curr : α × α × α) (d cum next : α) :
    sampleLoop i prev curr d cum next =
      ((List.range (⌊(cum + d - next) / i⌋ + 1).toNat).map
          (fun j : ℕ => interpPoint prev curr d cum (next + (j : α) * i)),
        next + ((⌊(cum + d - next) / i⌋ + 1).toNat : α) * i) :=
  sampleLoop_closed_aux hi prev curr d cum _ next rfl

/-- After the inner loop, `next_sample_distance` strictly exceeds the
cumulative distance through the current segment (the loop's exit
condition). -/
theorem loop_final_gt {α : Type*} [LinearOrderedField α] [FloorRing α]
    {i : α} (hi : 0 < i) (d cum next : α) :
    cum + d < next + (((⌊(cum + d - next) / i⌋ + 1).toNat : ℕ) : α) * i := by
  set z := (cum + d - next) / i with hz
  have h1 : z < ((⌊z⌋ + 1 : ℤ) : α) := by
    push_cast
    exact Int.lt_floor_add_one z
  have h2 : ((⌊z⌋ + 1 : ℤ) : α) ≤ (((⌊z⌋ + 1).toNat : ℕ) : α) := by
    exact_mod_cast Int.self_le_toNat _
  have h3 : z * i = cum + d - next := by
    rw [hz, div_mul_cancel₀ _ hi.ne']
  nlinarith [lt_of_lt_of_le h1 h2, hi]

theorem interpPoint_lat {α : Type*} [LinearOrderedField α] [FloorRing α]
    (prev curr : α × α × α) (d cum s : α) :
    (interpPoint prev curr d cum s).lat
      = prev.1 + (s - cum) / d * (curr.1 - prev.1) := rfl

theorem interpPoint_lon {α : Type*} [LinearOrderedField α] [FloorRing α]
    (prev curr : α × α × α) (d cum s : α) :
    (interpPoint prev curr d cum s).lon
      = prev.2.1 + (s - cum) / d * (curr.2.1 - prev.2.1) := rfl

theorem interpPoint_timestamp {α : Type*} [LinearOrderedField α] [FloorRing α]
    (prev curr : α × α × α) (d cum s : α) :
    (interpPoint prev curr d cum s).timestamp
      = pyInt (prev.2.2 + (s - cum) / d * (curr.2.2 - prev.2.2)) := rfl

theorem interpPoint_distance {α : Type*} [LinearOrderedField α] [FloorRing α]
    (prev curr : α × α × α) (d cum s : α) :
    (interpPoint prev curr d cum s).distance_km = pyRound2 s := rfl

/-- Every sample index the inner loop emits stays inside the current
segment. -/
theorem loopIndex_le {α : Type*} [LinearOrderedField α] [FloorRing α]
    {i : α} (hi : 0 < i) {d cum next : α} {j : ℕ}
    (hj : j < (⌊(cum + d - next) / i⌋ + 1).toNat) :
    next + (j : α) * i ≤ cum + d := by
  have hA : 0 ≤ ⌊(cum + d - next) / i⌋ := by omega
  have hjA : (j : ℤ) ≤ ⌊(cum + d - next) / i⌋ := by omega
  have h2 : ((j : ℤ) : α) ≤ (cum + d - next) / i :=
    le_trans (Int.cast_le.2 hjA) (Int.floor_le _)
  have h3 : (j : α) * i ≤ (cum + d - next) / i * i := by
    apply mul_le_mul_of_nonneg_right _ hi.le
    exact_mod_cast h2
  rw [div_mul_cancel₀ _ hi.ne'] at h3
  linarith

theorem totalDistance_nonneg {α : Type*} [LinearOrderedField α]
    (dist : α → α → α → α → α) (hd : ∀ a b c e, 0 ≤ dist a b c e) :
    ∀ l : List (α × α × α), 0 ≤ totalDistance dist l := by
  intro l
  induction l with
  | nil => simp [totalDistance]
  | cons a tail ih =>
      cases tail with
      | nil => simp [totalDistance]
      | cons b rest =>
          simp only [totalDistance]
          exact add_nonneg (hd _ _ _ _) ih

/-- Number of points the segment loop emits, in terms of the remaining total
distance. -/
theorem sampleSegs_length {α : Type*} [LinearOrderedField α] [FloorRing α]
    (dist : α → α → α → α → α) (hd : ∀ a b c e, 0 ≤ dist a b c e)
    {i : α} (hi : 0 < i) :
    ∀ (rest : List (α × α × α)) (prev : α × α × α) (cum next : α),
      cum < next →
      (sampleSegs dist i prev rest cum next).length =
        (⌊(cum + totalDistance dist (prev :: rest) - next) / i⌋ + 1).toNat := by
  intro rest
  induction rest with
  | nil =>
      intro prev cum next hcn
      have h0 : (cum + totalDistance dist [prev] - next) / i < 0 := by
        simp only [totalDistance]
        exact div_neg_of_neg_of_pos (by linarith) hi
      have h1 : ⌊(cum + totalDistance dist [prev] - next) / i⌋ < 0 := by
        rw [Int.floor_lt]
        exact_mod_cast h0
      simp only [sampleSegs, List.length_nil]
      omega
  | cons curr rest' ih =>
      intro prev cum next hcn
      simp only [sampleSegs]
      rw [sampleLoop_closed hi]
      simp only [List.length_append, List.length_map, List.length_range]
      set d := dist prev.1 prev.2.1 curr.1 curr.2.1 with hdd
      set K := (⌊(cum + d - next) / i⌋ + 1).toNat with hKdef
      have hgt : cum + d < next + (K : α) * i := by
        rw [hKdef]
        exact loop_final_gt hi d cum next
      rw [ih curr (cum + d) (next + (K : α) * i) hgt]
      have hS : 0 ≤ totalDistance dist (curr :: rest') :=
        totalDistance_nonneg dist hd _
      set S := totalDistance dist (curr :: rest') with hSS
      have htot : totalDistance dist (prev :: curr :: rest') = d + S := by
        simp only [totalDistance, hdd, hSS]
      rw [htot]
      have hshift : (cum + d + S - (next + (K : α) * i)) / i
          = (cum + (d + S) - next) / i - ((K : ℤ) : α) := by
        push_cast
        rw [show cum + d + S - (next + (K : α) * i)
            = (cum + (d + S) - next) - (K : α) * i by ring, sub_div,
          mul_div_assoc, div_self hi.ne', mul_one]
      rw [hshift, Int.floor_sub_int]
      have hmono : ⌊(cum + d - next) / i⌋ ≤ ⌊(cum + (d + S) - next) / i⌋ := by
        apply Int.floor_le_floor
        have hnum : cum + d - next ≤ cum + (d + S) - next := by linarith
        exact div_le_div_of_le hi.le hnum
      omega

theorem sample_route_by_distance_length {α : Type*} [LinearOrderedField α]
    [FloorRing α] (dist : α → α → α → α → α)
    (hd : ∀ a b c e, 0 ≤ dist a b c e) {i : α} (hi : 0 < i)
    (first : α × α × α) (rest : List (α × α × α)) :
    (sample_route_by_distance dist (first :: rest) i).length
      = (⌊totalDistance dist (first :: rest) / i⌋).toNat + 1 := by
  simp only [sample_route_by_distance, List.length_cons]
  rw [sampleSegs_length dist hd hi rest first 0 i hi]
  set L := totalDistance dist (first :: rest) with hL
  have h1 : (0 + L - i) / i = L / i - 1 := by
    rw [show (0 : α) + L - i = L - i by ring, sub_div, div_self hi.ne']
  rw [h1, Int.floor_sub_one]
  omega

/-- Cross-segment invariant of the sampler: prefixed with any point `x`
whose distance and timestamp lie below the coming emissions, the remaining
output is monotone in both `distance_km` and `timestamp` (for routes with
non-decreasing timestamps and a positive interval). -/
theorem sampleSegs_chain {α : Type*} [LinearOrderedField α] [FloorRing α]
    (dist : α → α → α → α → α) {i : α} (hi : 0 < i) :
    ∀ (rest : List (α × α × α)) (prev : α × α × α) (cum next : α)
      (x : SamplePoint α),
      cum < next →
      List.Chain' (fun p q : α × α × α => p.2.2 ≤ q.2.2) (prev :: rest) →
      x.distance_km ≤ pyRound2 next →
      x.timestamp ≤ pyInt prev.2.2 →
      List.Chain' (fun u v : SamplePoint α =>
          u.distance_km ≤ v.distance_km ∧ u.timestamp ≤ v.timestamp)
        (x :: sampleSegs dist i prev rest cum next) := by
  intro rest
  induction rest with
  | nil =>
      intro prev cum next x _ _ _ _
      simp [sampleSegs]
  | cons curr rest' ih =>
      intro prev cum next x hcn hts hxd hxt
      obtain ⟨hpc, hts'⟩ := List.chain'_cons.1 hts
      simp only [sampleSegs]
      rw [sampleLoop_closed hi]
      set d := dist prev.1 prev.2.1 curr.1 curr.2.1 with hdd
      set K := (⌊(cum + d - next) / i⌋ + 1).toNat with hKdef
      set g : ℕ → SamplePoint α :=
        fun j => interpPoint prev curr d cum (next + (j : α) * i) with hg
      have hgt : cum + d < next + (K : α) * i := by
        rw [hKdef]
        exact loop_final_gt hi d cum next
      rcases Nat.eq_zero_or_pos K with hK0 | hK1
      · simp only [hK0, List.range_zero, List.map_nil, List.nil_append,
          Nat.cast_zero, zero_mul, add_zero] at hgt ⊢
        exact ih curr (cum + d) next x (by linarith) hts' hxd
          (le_trans hxt (pyInt_mono hpc))
      · obtain ⟨K', hKs⟩ : ∃ K', K = K' + 1 := ⟨K - 1, by omega⟩
        have hd0 : 0 < d := by
          have hj0 : (0 : ℕ) < (⌊(cum + d - next) / i⌋ + 1).toNat := by
            rw [← hKdef]; exact hK1
          have h0 := loopIndex_le hi hj0
          simp only [Nat.cast_zero, zero_mul, add_zero] at h0
          linarith
        have hΔ : 0 ≤ curr.2.2 - prev.2.2 := by linarith
        have hslb : ∀ j : ℕ, cum < next + (j : α) * i := by
          intro j
          have hji : (0 : α) ≤ (j : α) * i := by positivity
          linarith
        have hs_mono : ∀ j : ℕ, next + (j : α) * i ≤ next + ((j + 1 : ℕ) : α) * i := by
          intro j
          push_cast
          nlinarith [hi]
        have hraw_lb : ∀ j : ℕ,
            prev.2.2 ≤ prev.2.2 + (next + (j : α) * i - cum) / d * (curr.2.2 - prev.2.2) := by
          intro j
          have hf : 0 ≤ (next + (j : α) * i - cum) / d :=
            le_of_lt (div_pos (by linarith [hslb j]) hd0)
          nlinarith [mul_nonneg hf hΔ]
        have hraw_ub : ∀ j : ℕ, j < K →
            prev.2.2 + (next + (j : α) * i - cum) / d * (curr.2.2 - prev.2.2) ≤ curr.2.2 := by
          intro j hj
          have hj' : j < (⌊(cum + d - next) / i⌋ + 1).toNat := by
            rw [← hKdef]; exact hj
          have hs := loopIndex_le hi hj'
          have hf1 : (next + (j : α) * i - cum) / d ≤ 1 :=
            (div_le_one hd0).2 (by linarith)
          have hm := mul_le_of_le_one_left hΔ hf1
          linarith [hm]
        have hraw_mono : ∀ j : ℕ,
            prev.2.2 + (next + (j : α) * i - cum) / d * (curr.2.2 - prev.2.2)
              ≤ prev.2.2 + (next + ((j + 1 : ℕ) : α) * i - cum) / d * (curr.2.2 - prev.2.2) := by
          intro j
          have hf : (next + (j : α) * i - cum) / d ≤ (next + ((j + 1 : ℕ) : α) * i - cum) / d :=
            div_le_div_of_le hd0.le (by linarith [hs_mono j])
          nlinarith [mul_le_mul_of_nonneg_right hf hΔ]
        have hgd : ∀ j : ℕ, (g j).distance_km = pyRound2 (next + (j : α) * i) := by
          intro j
          simp only [hg, interpPoint_distance]
        have hgts : ∀ j : ℕ, (g j).timestamp
            = pyInt (prev.2.2 + (next + (j : α) * i - cum) / d * (curr.2.2 - prev.2.2)) := by
          intro j
          simp only [hg, interpPoint_timestamp]
        have hchain1 : List.Chain' (fun u v : SamplePoint α =>
            u.distance_km ≤ v.distance_km ∧ u.timestamp ≤ v.timestamp)
            (x :: (List.range K).map g) := by
          refine List.chain'_cons'.2 ⟨?_, ?_⟩
          · intro b hb
            rw [hKs, List.range_succ_eq_map, List.map_cons, List.head?_cons,
              Option.mem_some_iff] at hb
            subst hb
            constructor
            · rw [hgd 0]
              refine le_trans hxd (pyRound2_mono ?_)
              simp
            · rw [hgts 0]
              exact le_trans hxt (pyInt_mono (by simpa using hraw_lb 0))
          · rw [List.chain'_map, hKs, List.chain'_range_succ]
            intro m _
            constructor
            · rw [hgd m, hgd (m + 1)]
              exact pyRound2_mono (by simpa using hs_mono m)
            · rw [hgts m, hgts (m + 1)]
              exact pyInt_mono (by simpa using hraw_mono m)
        have hlast : (x :: (List.range K).map g).getLast? = some (g K') := by
          rw [hKs, List.range_succ, List.map_append, List.map_singleton]
          rw [show x :: ((List.range K').map g ++ [g K'])
              = (x :: (List.range K').map g) ++ [g K'] from (List.cons_append _ _ _).symm]
          exact List.getLast?_concat _
        have hrec : List.Chain' (fun u v : SamplePoint α =>
            u.distance_km ≤ v.distance_km ∧ u.timestamp ≤ v.timestamp)
            (g K' :: sampleSegs dist i curr rest' (cum + d) (next + (K : α) * i)) := by
          refine ih curr (cum + d) (next + (K : α) * i) (g K') hgt hts' ?_ ?_
          · rw [hgd K']
            refine pyRound2_mono ?_
            rw [hKs]
            push_cast
            nlinarith [hi]
          · rw [hgts K']
            exact pyInt_mono (hraw_ub K' (by omega))
        rw [show x :: ((List.range K).map g
              ++ sampleSegs dist i curr rest' (cum + d) (next + (K : α) * i))
            = (x :: (List.range K).map g)
              ++ sampleSegs dist i curr rest' (cum + d) (next + (K : α) * i)
            from (List.cons_append _ _ _).symm]
        rw [List.chain'_append]
        refine ⟨hchain1, (List.chain'_cons'.1 hrec).2, ?_⟩
        intro a ha b hb
        rw [hlast, Option.mem_some_iff] at ha
        subst ha
        exact (List.chain'_cons'.1 hrec).1 b hb

/-- Inversion for the sampler's emissions: every emitted point's timestamp
is the `int()`-truncation of a timestamp linearly interpolated (with a
fraction in `(0, 1]`) between two consecutive route points, and its distance
is the rounding of some grid value at or beyond the current
`next_sample_distance`. -/
theorem sampleSegs_mem {α : Type*} [LinearOrderedField α] [FloorRing α]
    (dist : α → α → α → α → α) {i : α} (hi : 0 < i) :
    ∀ (rest : List (α × α × α)) (prev : α × α × α) (cum next : α),
      cum < next →
      ∀ p ∈ sampleSegs dist i prev rest cum next,
        ∃ (l₁ l₂ : List (α × α × α)) (a b : α × α × α) (f : α),
          prev :: rest = l₁ ++ a :: b :: l₂ ∧ 0 < f ∧ f ≤ 1 ∧
          p.timestamp = pyInt (a.2.2 + f * (b.2.2 - a.2.2)) ∧
          ∃ s : α, next ≤ s ∧ p.distance_km = pyRound2 s := by
  intro rest
  induction rest with
  | nil =>
      intro prev cum next _ p hp
      simp [sampleSegs] at hp
  | cons curr rest' ih =>
      intro prev cum next hcn p hp
      simp only [sampleSegs] at hp
      rw [sampleLoop_closed hi] at hp
      set d := dist prev.1 prev.2.1 curr.1 curr.2.1 with hdd
      set K := (⌊(cum + d - next) / i⌋ + 1).toNat with hKdef
      rcases List.mem_append.1 hp with hp | hp
      · obtain ⟨j, hjr, rfl⟩ := List.mem_map.1 hp
        have hj : j < K := List.mem_range.1 hjr
        have hj' : j < (⌊(cum + d - next) / i⌋ + 1).toNat := by
          rw [← hKdef]; exact hj
        have hji : (0 : α) ≤ (j : α) * i := by positivity
        have hd0 : 0 < d := by
          have hj0 : (0 : ℕ) < (⌊(cum + d - next) / i⌋ + 1).toNat := by omega
          have h0 := loopIndex_le hi hj0
          simp only [Nat.cast_zero, zero_mul, add_zero] at h0
          linarith
        refine ⟨[], rest', prev, curr, (next + (j : α) * i - cum) / d,
          rfl, ?_, ?_, ?_, next + (j : α) * i, by linarith, ?_⟩
        · exact div_pos (by linarith) hd0
        · exact (div_le_one hd0).2 (by linarith [loopIndex_le hi hj'])
        · exact interpPoint_timestamp prev curr d cum (next + (j : α) * i)
        · exact interpPoint_distance prev curr d cum (next + (j : α) * i)
      · have hgt : cum + d < next + (K : α) * i := by
          rw [hKdef]
          exact loop_final_gt hi d cum next
        obtain ⟨l₁, l₂, a, b, f, heq, hf0, hf1, hts, s, hs, hdist⟩ :=
          ih curr (cum + d) (next + (K : α) * i) hgt p hp
        have hKi : (0 : α) ≤ (K : α) * i := by positivity
        exact ⟨prev :: l₁, l₂, a, b, f, by rw [List.cons_append, ← heq],
          hf0, hf1, hts, s, by linarith, hdist⟩

/-! ## Geometry of `haversine` -/

theorem arctan2_nonneg {y x : ℝ} (hy : 0 ≤ y) (hx : 0 ≤ x) :
    0 ≤ arctan2 y x := by
  unfold arctan2
  split_ifs with h1 h2 h3 h4 h5
  · have hq : 0 ≤ y / x := div_nonneg hy h1.le
    have := Real.arctan_strictMono.monotone hq
    rwa [Real.arctan_zero] at this
  · linarith
  · linarith [Real.pi_pos]
  · linarith
  · exact le_refl 0

theorem haversine_nonneg (a b c e : ℝ) : 0 ≤ haversine a b c e := by
  simp only [haversine]
  have h := arctan2_nonneg (Real.sqrt_nonneg
    (Real.sin ((radians c - radians a) / 2) ^ 2 +
      Real.cos (radians a) * Real.cos (radians c) *
        Real.sin ((radians e - radians b) / 2) ^ 2))
    (Real.sqrt_nonneg (1 - (Real.sin ((radians c - radians a) / 2) ^ 2 +
      Real.cos (radians a) * Real.cos (radians c) *
        Real.sin ((radians e - radians b) / 2) ^ 2)))
  linarith

/-- On the equator, `haversine` reduces to arc length: the distance from
`(0, 0)` to `(0, w)` is `6371 · w · π / 180` for `0 < w < 180`. -/
theorem haversine_equator {w : ℝ} (h0 : 0 < w) (h1 : w < 180) :
    haversine 0 0 0 w = 6371 * (w * Real.pi / 180) := by
  have hpi := Real.pi_pos
  have hr0 : radians 0 = 0 := by simp [radians]
  have hθlt : w * Real.pi / 360 < Real.pi / 2 := by nlinarith
  have hθ0 : 0 < w * Real.pi / 360 := by positivity
  have hθpi : w * Real.pi / 360 ≤ Real.pi := by nlinarith
  have hsin0 : 0 ≤ Real.sin (w * Real.pi / 360) :=
    Real.sin_nonneg_of_nonneg_of_le_pi hθ0.le hθpi
  have hcos0 : 0 < Real.cos (w * Real.pi / 360) :=
    Real.cos_pos_of_mem_Ioo ⟨by linarith, hθlt⟩
  simp only [haversine, hr0]
  rw [show (0 : ℝ) - 0 = 0 by norm_num, show (0 : ℝ) / 2 = 0 by norm_num]
  rw [show (radians w - 0) / 2 = w * Real.pi / 360 by
    simp only [radians]; ring]
  rw [Real.sin_zero, Real.cos_zero]
  rw [show (0 : ℝ) ^ 2 + 1 * 1 * Real.sin (w * Real.pi / 360) ^ 2
      = Real.sin (w * Real.pi / 360) ^ 2 by ring]
  rw [Real.sqrt_sq hsin0]
  rw [show 1 - Real.sin (w * Real.pi / 360) ^ 2 = Real.cos (w * Real.pi / 360) ^ 2 by
    nlinarith [Real.sin_sq_add_cos_sq (w * Real.pi / 360)]]
  rw [Real.sqrt_sq hcos0.le]
  rw [arctan2, if_pos hcos0]
  rw [← Real.tan_eq_sin_div_cos, Real.arctan_tan (by linarith) hθlt]
  ring

/-! ## Claims -/

/-- C1: for every sample point, the final weather category follows the
spec's precedence table: coarse `Rain` wins; else the detailed category;
else coarse adapter failure gives the spec's `Unknown` (the source's
`"No forecast"` sentinel); else `Cloudy`. Stated as a refinement: abstracting
the source's string result yields exactly `specReconcileCategory` applied to
the abstracted inputs, for every coarse signal the Yahoo stage can produce
and every detailed result the Open-Meteo stage can produce. -/
theorem c1_reconciler_precedence {α : Type*} (coarse : String)
    (om : Option (OMResult α))
    (hc : coarse = "Rain" ∨ coarse = "No rain" ∨ coarse = "No forecast")
    (hom : ∀ d ∈ om, ∃ code : ℤ, d.description = wmo_code_to_description code) :
    categoryOfDescription (final_description coarse om)
      = some (specReconcileCategory (coarseSignalOfDescription coarse)
          (om.bind (fun d => categoryOfDescription d.description))) := by
  have hwmo : ∀ code : ℤ, wmo_code_to_description code = "Sunny" ∨
      wmo_code_to_description code = "Cloudy" ∨
      wmo_code_to_description code = "Rain" := by
    intro code
    unfold wmo_code_to_description
    split_ifs <;> simp
  rcases hc with rfl | rfl | rfl <;> rcases om with _ | d
  · simp [final_description, coarseSignalOfDescription, specReconcileCategory,
      categoryOfDescription]
  · obtain ⟨code, hcode⟩ := hom d (by simp)
    rcases hwmo code with h | h | h <;>
      simp [final_description, coarseSignalOfDescription, specReconcileCategory,
        categoryOfDescription, hcode, h]
  · simp [final_description, coarseSignalOfDescription, specReconcileCategory,
      categoryOfDescription]
  · obtain ⟨code, hcode⟩ := hom d (by simp)
    rcases hwmo code with h | h | h <;>
      simp [final_description, coarseSignalOfDescription, specReconcileCategory,
        categoryOfDescription, hcode, h]
  · simp [final_description, coarseSignalOfDescription, specReconcileCategory,
      categoryOfDescription]
  · obtain ⟨code, hcode⟩ := hom d (by simp)
    rcases hwmo code with h | h | h <;>
      simp [final_description, coarseSignalOfDescription, specReconcileCategory,
        categoryOfDescription, hcode, h]

/-- Witness for C1 at a concrete input: a failed coarse batch with the
detailed adapter unavailable reconciles to the `Unknown` category. -/
theorem c1_witness :
    categoryOfDescription (final_description "No forecast"
        (none : Option (OMResult ℚ)))
      = some WeatherCategory.unknown := by
  have h := c1_reconciler_precedence (α := ℚ) "No forecast" none
    (Or.inr (Or.inr rfl)) (by simp)
  simpa [coarseSignalOfDescription, specReconcileCategory] using h

/-- C2 is false of the code: a response without the `Feature` key makes the
adapter raise `ValueError`, which its `except requests.exceptions.
RequestException` clause does not catch, so the exception escapes instead of
the batch degrading to `No forecast`; and on a feature-count mismatch `zip`
silently truncates, leaving the surplus points unmarked rather than marking
the whole batch. Both behaviors at concrete inputs: -/
theorem c2_contract_violation_bug :
    (yahooChunk [⟨(0 : ℚ), 0, 0, none⟩] (.response none)
        = .error (.valueError "API response does not contain 'Feature' key."))
    ∧ (yahooChunk [⟨(0 : ℚ), 0, 0, none⟩, ⟨1, 1, 0, none⟩]
          (.response (some [⟨[⟨0, some 5⟩]⟩]))
        = .ok [⟨0, 0, 0, some ⟨"Rain", some 5⟩⟩, ⟨1, 1, 0, none⟩]) := by
  constructor
  · rfl
  · rfl

/-- C3: for every non-empty projected route and positive sampling interval,
the first output SamplePoint is always emitted, has `distance_km = 0` and
carries the first input point's coordinates exactly. (The source's loop does
not terminate for non-positive intervals, so those are excluded.) -/
theorem c3_first_sample_point (r : ℝ × ℝ × ℝ) (rest : List (ℝ × ℝ × ℝ))
    (i : ℝ) (hi : 0 < i) :
    (sample_route_by_distance haversine (r :: rest) i).head?
      = some ⟨r.1, r.2.1, pyInt r.2.2, 0⟩ := rfl

/-- Witness for C3 at a concrete route and interval. -/
theorem c3_witness :
    (sample_route_by_distance haversine [((1 : ℝ), 2, 3)] 15).head?
      = some ⟨1, 2, pyInt (3 : ℝ), 0⟩ :=
  c3_first_sample_point (1, 2, 3) [] 15 (by norm_num)

/-- C6: the engine entry point maps an empty route to an empty report (and
no other route: a non-empty route always yields a non-empty report). The
embedding is total on this path, modelling that no exception is raised. -/
theorem c6_empty_route_empty_result :
    (∀ (dist : ℝ → ℝ → ℝ → ℝ → ℝ) (t : ℝ),
      simulate_journey_samples dist [] t = []) ∧
    (∀ (dist : ℝ → ℝ → ℝ → ℝ → ℝ) (route : List (ℝ × ℝ × ℝ)) (t : ℝ),
      route ≠ [] → simulate_journey_samples dist route t ≠ []) := by
  constructor
  · intro dist t
    rfl
  · intro dist route t hne
    cases route with
    | nil => exact absurd rfl hne
    | cons a rest =>
        simp [simulate_journey_samples, sample_route_by_distance]

/-- Witness for C6 at concrete routes. -/
theorem c6_witness :
    simulate_journey_samples haversine ([] : List (ℝ × ℝ × ℝ)) 0 = [] ∧
    simulate_journey_samples haversine [((1 : ℝ), 2, 3)] 0 ≠ [] :=
  ⟨c6_empty_route_empty_result.1 haversine 0,
   c6_empty_route_empty_result.2 haversine [(1, 2, 3)] 0 (by simp)⟩

/-- C7 fails on the code in its final conjunct. The retry loop does
perform 3 attempts with a 1-second pause between consecutive attempts and
then returns "unavailable" (first conjunct: 3 attempts, 2 pauses), and a
response with no hourly time series also returns "unavailable" (second
conjunct); but a response whose time array is nonempty while the
temperature/code arrays are missing or shorter raises an uncaught
`KeyError`/`IndexError` past the adapter boundary (third conjunct, the
failing input), because the `except` clause catches only
`requests.exceptions.RequestException`. -/
theorem c7_open_meteo_retry :
    (get_open_meteo_data (fun _ => (OMAttempt.requestException :
        OMAttempt ℚ)) 0 = (.ok none, 3, 2)) ∧
    (get_open_meteo_data (fun _ => (OMAttempt.success ⟨[], [], []⟩ :
        OMAttempt ℚ)) 0 = (.ok none, 1, 0)) ∧
    (get_open_meteo_data (fun _ => (OMAttempt.success ⟨[0], [], []⟩ :
        OMAttempt ℚ)) 0 = (.error .indexError, 1, 0)) := by
  refine ⟨rfl, rfl, rfl⟩

/-- The tail of the average-speed projection reproduces the input
coordinates in order and satisfies the travel-time recurrence. -/
theorem projectAvgGo_spec {α : Type*} [LinearOrderedField α]
    (dist : α → α → α → α → α) (v : α) :
    ∀ (rest : List (α × α)) (prev : α × α) (t : α),
      ((projectAvgGo dist v prev t rest).map (fun p => (p.1, p.2.1)) = rest) ∧
      List.Chain' (fun p q : α × α × α =>
          q.2.2 = p.2.2 + dist p.1 p.2.1 q.1 q.2.1 / v * 3600)
        ((prev.1, prev.2, t) :: projectAvgGo dist v prev t rest) := by
  intro rest
  induction rest with
  | nil =>
      intro prev t
      exact ⟨rfl, List.chain'_singleton _⟩
  | cons curr rest' ih =>
      intro prev t
      constructor
      · simp only [projectAvgGo, List.map_cons]
        rw [(ih curr _).1]
      · simp only [projectAvgGo]
        refine List.chain'_cons.2 ⟨rfl, ?_⟩
        exact (ih curr (t + dist prev.1 prev.2 curr.1 curr.2 / v * 3600)).2

/-- C8 (modelled from the spec, see `project_route_avg_speed`): in
average-speed mode the projector keeps the input's length, order and
coordinates, gives the first point `timestamp = start_time`, and gives each
subsequent point `timestamp = prev.timestamp + Distance(prev, curr) /
avg_speed_kmh * 3600`. -/
theorem c8_avg_speed_projection (points : List (ℝ × ℝ)) (v t0 : ℝ) :
    ((project_route_avg_speed haversine points v t0).map
        (fun p => (p.1, p.2.1)) = points) ∧
    (∀ p, (project_route_avg_speed haversine points v t0).head? = some p →
      p.2.2 = t0) ∧
    List.Chain' (fun p q : ℝ × ℝ × ℝ =>
        q.2.2 = p.2.2 + haversine p.1 p.2.1 q.1 q.2.1 / v * 3600)
      (project_route_avg_speed haversine points v t0) := by
  cases points with
  | nil =>
      refine ⟨rfl, ?_, by simp [project_route_avg_speed]⟩
      intro p hp
      simp [project_route_avg_speed] at hp
  | cons a rest =>
      refine ⟨?_, ?_, ?_⟩
      · simp only [project_route_avg_speed, List.map_cons]
        rw [(projectAvgGo_spec haversine v rest a t0).1]
      · intro p hp
        simp only [project_route_avg_speed, List.head?_cons,
          Option.some.injEq] at hp
        rw [← hp]
      · exact (projectAvgGo_spec haversine v rest a t0).2

/-- Witness for C8 at a concrete two-point route. -/
theorem c8_witness :
    ((project_route_avg_speed haversine [((0 : ℝ), 0), (0, 1)] 50 0).map
        (fun p => (p.1, p.2.1)) = [((0 : ℝ), 0), (0, 1)]) ∧
    ((0 : ℝ), (0 : ℝ), (0 : ℝ)).2.2 = (0 : ℝ) :=
  ⟨(c8_avg_speed_projection [((0 : ℝ), 0), (0, 1)] 50 0).1,
   (c8_avg_speed_projection [((0 : ℝ), 0), (0, 1)] 50 0).2.1
     ((0 : ℝ), (0 : ℝ), (0 : ℝ)) rfl⟩

/-- C4: for every projected route with non-decreasing timestamps and every
positive sampling interval, the sampler's output has non-decreasing
`distance_km` and non-decreasing `timestamp` from each element to the
next. -/
theorem c4_monotone_samples (route : List (ℝ × ℝ × ℝ)) (i : ℝ) (hi : 0 < i)
    (hts : List.Chain' (fun p q : ℝ × ℝ × ℝ => p.2.2 ≤ q.2.2) route) :
    List.Chain' (fun u v : SamplePoint ℝ => u.distance_km ≤ v.distance_km)
      (sample_route_by_distance haversine route i) ∧
    List.Chain' (fun u v : SamplePoint ℝ => u.timestamp ≤ v.timestamp)
      (sample_route_by_distance haversine route i) := by
  cases route with
  | nil => constructor <;> simp [sample_route_by_distance]
  | cons first rest =>
      have hch := sampleSegs_chain haversine hi rest first 0 i
        ⟨first.1, first.2.1, pyInt first.2.2, 0⟩ hi hts
        (pyRound2_nonneg hi.le) (le_refl _)
      constructor
      · exact hch.imp (fun a b h => h.1)
      · exact hch.imp (fun a b h => h.2)

/-- Witness for C4 at a concrete two-point route. -/
theorem c4_witness :
    List.Chain' (fun u v : SamplePoint ℝ => u.distance_km ≤ v.distance_km)
      (sample_route_by_distance haversine [((0 : ℝ), 0, 0), (0, 1, 60)] 15) ∧
    List.Chain' (fun u v : SamplePoint ℝ => u.timestamp ≤ v.timestamp)
      (sample_route_by_distance haversine [((0 : ℝ), 0, 0), (0, 1, 60)] 15) :=
  c4_monotone_samples [((0 : ℝ), 0, 0), (0, 1, 60)] 15 (by norm_num)
    (by norm_num [List.chain'_cons])

/-- C10: every emitted SamplePoint's timestamp is the `int()`-truncation
(`pyInt`) of a linearly interpolated timestamp between two consecutive
route points; in particular the first output point's timestamp is `pyInt`
of the first projected timestamp (fractional seconds are discarded). -/
theorem c10_integer_timestamps (r : ℝ × ℝ × ℝ) (rest : List (ℝ × ℝ × ℝ))
    (i : ℝ) (hi : 0 < i) :
    ((sample_route_by_distance haversine (r :: rest) i).head?
        = some ⟨r.1, r.2.1, pyInt r.2.2, 0⟩) ∧
    (∀ p ∈ sample_route_by_distance haversine (r :: rest) i,
      ∃ x : ℝ, p.timestamp = pyInt x ∧
        (x = r.2.2 ∨
          ∃ (l₁ l₂ : List (ℝ × ℝ × ℝ)) (a b : ℝ × ℝ × ℝ) (f : ℝ),
            r :: rest = l₁ ++ a :: b :: l₂ ∧ 0 < f ∧ f ≤ 1 ∧
            x = a.2.2 + f * (b.2.2 - a.2.2))) := by
  refine ⟨rfl, ?_⟩
  intro p hp
  simp only [sample_route_by_distance] at hp
  rcases List.mem_cons.1 hp with rfl | hp
  · exact ⟨r.2.2, rfl, Or.inl rfl⟩
  · obtain ⟨l₁, l₂, a, b, f, heq, hf0, hf1, hts, s, _, _⟩ :=
      sampleSegs_mem haversine hi rest r 0 i hi p hp
    exact ⟨a.2.2 + f * (b.2.2 - a.2.2), hts,
      Or.inr ⟨l₁, l₂, a, b, f, heq, hf0, hf1, rfl⟩⟩

/-- Witness for C10: a first projected timestamp of 1.5 seconds is truncated
to the integer 1 in the first output point. -/
theorem c10_witness :
    (sample_route_by_distance haversine [((1 : ℝ), 2, 3 / 2)] 15).head?
      = some ⟨1, 2, 1, 0⟩ := by
  have h := (c10_integer_timestamps ((1 : ℝ), 2, 3 / 2) [] 15 (by norm_num)).1
  have hfl : pyInt ((3 : ℝ) / 2) = 1 := by
    rw [pyInt, if_pos (by norm_num : (0 : ℝ) ≤ 3 / 2)]
    rw [Int.floor_eq_iff]
    constructor <;> norm_num
  exact h.trans (by simp [hfl])

theorem chooseInterval_pos {α : Type*} [LinearOrderedField α] [FloorRing α]
    (L : α) : 0 < chooseInterval L := by
  unfold chooseInterval
  split_ifs <;>
    first
    | exact lt_of_lt_of_le (by norm_num) (le_max_right _ 5)
    | norm_num

/-- C5: when the engine selects the interval dynamically, a route of total
length `L` with `L / hard_min_interval ≥ min_points - 1` (i.e. `4 ≤ L / 5`)
yields a sample-point count within `[MIN_POINTS, MAX_POINTS] = [5, 15]`;
when that condition fails the hard 5 km floor dominates and the count can
drop below 5, as the concrete ≈11.12 km route in the second conjunct
shows (3 points). -/
theorem c5_dynamic_interval_point_count :
    (∀ (route : List (ℝ × ℝ × ℝ)) (t0 : ℝ),
      4 ≤ totalDistance haversine
          (route.map (fun p => (p.1, p.2.1, t0 + p.2.2))) / 5 →
      (simulate_journey_samples haversine route t0).length ∈
        Set.Icc 5 15) ∧
    ((simulate_journey_samples haversine
        [((0 : ℝ), 0, 0), (0, 0.1, 0)] 0).length = 3 ∧
      totalDistance haversine
          ([((0 : ℝ), 0, 0), (0, 0.1, 0)].map
            (fun p => (p.1, p.2.1, (0 : ℝ) + p.2.2))) / 5 < 4) := by
  have hd : ∀ a b c e : ℝ, 0 ≤ haversine a b c e := haversine_nonneg
  constructor
  · intro route t0 hL
    cases route with
    | nil =>
        simp only [List.map_nil, totalDistance] at hL
        norm_num at hL
    | cons a rest =>
        have hsim : simulate_journey_samples haversine (a :: rest) t0
            = sample_route_by_distance haversine
                ((a.1, a.2.1, t0 + a.2.2) ::
                  rest.map (fun p => (p.1, p.2.1, t0 + p.2.2)))
                (chooseInterval (totalDistance haversine
                  ((a.1, a.2.1, t0 + a.2.2) ::
                    rest.map (fun p => (p.1, p.2.1, t0 + p.2.2))))) := rfl
        set L := totalDistance haversine
          ((a.1, a.2.1, t0 + a.2.2) ::
            rest.map (fun p => (p.1, p.2.1, t0 + p.2.2))) with hLdef
        have hLL : totalDistance haversine
            ((a :: rest).map (fun p => (p.1, p.2.1, t0 + p.2.2))) = L := by
          rw [hLdef, List.map_cons]
        rw [hLL] at hL
        have hL20 : (20 : ℝ) ≤ L := by linarith
        have hL0 : (0 : ℝ) < L := by linarith
        have hcount : (simulate_journey_samples haversine (a :: rest) t0).length
            = (⌊L / chooseInterval L⌋).toNat + 1 := by
          rw [hsim, sample_route_by_distance_length haversine hd
            (chooseInterval_pos L), ← hLdef]
        rw [hcount]
        unfold chooseInterval
        rw [if_pos hL0]
        by_cases h5 : (⌊L / 15⌋ + 1 : ℤ) < 5
        · rw [if_pos h5, max_eq_left (by linarith : (5 : ℝ) ≤ L / 4)]
          have h4 : L / (L / 4) = 4 := by
            field_simp
          rw [h4, show ((4 : ℝ)) = ((4 : ℤ) : ℝ) by norm_num,
            Int.floor_intCast]
          simp [Set.mem_Icc]
        · by_cases h15 : (15 : ℤ) < ⌊L / 15⌋ + 1
          · rw [if_neg h5, if_pos h15]
            have hfl : (15 : ℤ) ≤ ⌊L / 15⌋ := by omega
            have hL225 : (225 : ℝ) ≤ L := by
              have h225 := Int.le_floor.1 hfl
              push_cast at h225
              nlinarith
            rw [max_eq_left (by linarith : (5 : ℝ) ≤ L / 14)]
            have h14 : L / (L / 14) = 14 := by
              field_simp
            rw [h14, show ((14 : ℝ)) = ((14 : ℤ) : ℝ) by norm_num,
              Int.floor_intCast]
            simp [Set.mem_Icc]
          · rw [if_neg h5, if_neg h15,
              max_eq_left (by norm_num : (5 : ℝ) ≤ 15)]
            have h4 : (4 : ℤ) ≤ ⌊L / 15⌋ := by omega
            have h14 : ⌊L / 15⌋ ≤ 14 := by omega
            simp only [Set.mem_Icc]
            omega
  · have heq : haversine 0 0 0 0.1 = 6371 * (0.1 * Real.pi / 180) :=
      haversine_equator (by norm_num) (by norm_num)
    have hlb : (11.119 : ℝ) < haversine 0 0 0 0.1 := by
      rw [heq]
      nlinarith [Real.pi_gt_d6]
    have hub : haversine 0 0 0 0.1 < 11.120 := by
      rw [heq]
      nlinarith [Real.pi_lt_d6]
    have hT : totalDistance haversine
        ([((0 : ℝ), 0, 0), (0, 0.1, 0)].map
          (fun p => (p.1, p.2.1, (0 : ℝ) + p.2.2)))
        = haversine 0 0 0 0.1 := by
      simp [totalDistance]
    constructor
    · have hsim : simulate_journey_samples haversine
          [((0 : ℝ), 0, 0), (0, 0.1, 0)] 0
          = sample_route_by_distance haversine
              (((0 : ℝ), 0, (0 : ℝ) + 0) :: [((0 : ℝ), 0.1, (0 : ℝ) + 0)])
              (chooseInterval (totalDistance haversine
                (((0 : ℝ), 0, (0 : ℝ) + 0) :: [((0 : ℝ), 0.1, (0 : ℝ) + 0)]))) :=
        rfl
      have hT' : totalDistance haversine
          (((0 : ℝ), 0, (0 : ℝ) + 0) :: [((0 : ℝ), 0.1, (0 : ℝ) + 0)])
          = haversine 0 0 0 0.1 := by
        simp [totalDistance]
      have hci : chooseInterval (haversine 0 0 0 0.1) = 5 := by
        unfold chooseInterval
        rw [if_pos (by linarith)]
        have hfl0 : ⌊haversine 0 0 0 0.1 / 15⌋ = 0 := by
          rw [Int.floor_eq_zero_iff]
          constructor
          · positivity
          · rw [div_lt_one (by norm_num)]
            linarith
        have hcond : (⌊haversine 0 0 0 0.1 / 15⌋ + 1 : ℤ) < 5 := by
          rw [hfl0]
          norm_num
        rw [if_pos hcond, max_eq_right (by linarith : haversine 0 0 0 0.1 / 4 ≤ 5)]
      have hfl5 : ⌊haversine 0 0 0 0.1 / 5⌋ = 2 := by
        rw [Int.floor_eq_iff]
        push_cast
        constructor <;> [linarith; nlinarith]
      rw [hsim, sample_route_by_distance_length haversine hd
        (chooseInterval_pos _), hT', hci, hfl5]
      rfl
    · rw [hT]
      linarith

/-- Witness for C5: the ≈30 km Scenario-A route satisfies `4 ≤ L / 5` and
its point count lands in `[5, 15]`. -/
theorem c5_witness :
    (simulate_journey_samples haversine
        [((0 : ℝ), 0, 0), (0, 0.26975, 0)] 0).length ∈ Set.Icc 5 15 := by
  refine (c5_dynamic_interval_point_count).1
    [((0 : ℝ), 0, 0), (0, 0.26975, 0)] 0 ?_
  have heq : haversine 0 0 0 0.26975 = 6371 * (0.26975 * Real.pi / 180) :=
    haversine_equator (by norm_num) (by norm_num)
  have hT : totalDistance haversine
      ([((0 : ℝ), 0, 0), (0, 0.26975, 0)].map
        (fun p => (p.1, p.2.1, (0 : ℝ) + p.2.2)))
      = haversine 0 0 0 0.26975 := by
    simp [totalDistance]
  rw [hT, heq]
  nlinarith [Real.pi_gt_three]

/-- Full evaluation of the sampler on the spec's Scenario A route
`A = (0, 0)`, `B = (0, 0.26975)` at interval 15 km: exactly two points come
out, at distances 0 and 15. -/
theorem scenarioA_run :
    sample_route_by_distance haversine [((0 : ℝ), 0, 0), (0, 0.26975, 0)] 15
      = [⟨0, 0, 0, 0⟩,
         ⟨0, 15 / haversine 0 0 0 0.26975 * 0.26975, 0, 15⟩] := by
  have heq : haversine 0 0 0 0.26975 = 6371 * (0.26975 * Real.pi / 180) :=
    haversine_equator (by norm_num) (by norm_num)
  have hD15 : (15 : ℝ) ≤ haversine 0 0 0 0.26975 := by
    rw [heq]
    nlinarith [Real.pi_gt_three]
  have hD30 : haversine 0 0 0 0.26975 < 30 := by
    rw [heq]
    nlinarith [Real.pi_lt_d6]
  have hK : (⌊((0 : ℝ) + haversine 0 0 0 0.26975 - 15) / 15⌋ + 1).toNat = 1 := by
    have h0 : ⌊((0 : ℝ) + haversine 0 0 0 0.26975 - 15) / 15⌋ = 0 := by
      rw [Int.floor_eq_zero_iff]
      constructor
      · apply div_nonneg _ (by norm_num)
        linarith
      · rw [div_lt_one (by norm_num)]
        linarith
    rw [h0]
    rfl
  simp only [sample_route_by_distance, sampleSegs]
  rw [sampleLoop_closed (by norm_num : (0 : ℝ) < 15)]
  rw [hK]
  simp only [List.map_cons, List.map_nil, List.append_nil,
    Nat.cast_zero, zero_mul, add_zero]
  norm_num [interpPoint, pyInt, pyRound2_fifteen]
  rw [show List.range 1 = [0] from rfl]
  simp only [List.map_cons, List.map_nil, Nat.cast_zero, zero_mul, add_zero]
  norm_num [pyRound2_fifteen]

/-- C9 as stated is false at its own input: sampling the route
`A = (0, 0)`, `B = (0, 0.26975)` at interval 15 km produces 2 SamplePoints,
not 3 — the haversine length of the route is ≈ 29.995 km, strictly short of
30 km, so the 30 km sample is never emitted. -/
theorem c9_scenario_a_counterexample :
    (sample_route_by_distance haversine
        [((0 : ℝ), 0, 0), (0, 0.26975, 0)] 15).length ≠ 3 := by
  rw [scenarioA_run]
  norm_num

/-- C9 amended: Scenario A yields exactly 2 SamplePoints, at `distance_km`
0 and 15; the second point's longitude is `0.26975 · 15 / L ≈ 0.13490`
(linear interpolation at fraction `15 / L ≈ 0.50009`, not exactly 0.5),
where `L = haversine 0 0 0 0.26975 < 30` is the route's length. -/
theorem c9_scenario_a_amended :
    (sample_route_by_distance haversine [((0 : ℝ), 0, 0), (0, 0.26975, 0)] 15
      = [⟨0, 0, 0, 0⟩,
         ⟨0, 15 / haversine 0 0 0 0.26975 * 0.26975, 0, 15⟩]) ∧
    haversine 0 0 0 0.26975 < 30 ∧
    0.13489 < 15 / haversine 0 0 0 0.26975 * 0.26975 ∧
    15 / haversine 0 0 0 0.26975 * 0.26975 < 0.1349 := by
  have heq : haversine 0 0 0 0.26975 = 6371 * (0.26975 * Real.pi / 180) :=
    haversine_equator (by norm_num) (by norm_num)
  have hpi := Real.pi_pos
  have hD30 : haversine 0 0 0 0.26975 < 30 := by
    rw [heq]
    nlinarith [Real.pi_lt_d6]
  refine ⟨scenarioA_run, hD30, ?_, ?_⟩
  · rw [heq, div_mul_eq_mul_div, lt_div_iff (by positivity)]
    nlinarith [Real.pi_lt_d6]
  · rw [heq, div_mul_eq_mul_div, div_lt_iff (by positivity)]
    nlinarith [Real.pi_gt_d6]
